import Mathlib

/-!
# Verification of `src/pacman/pac.py` (Cnchi's pyalpm interface)

Shallow embedding of the `Pac` class of `src/pacman/pac.py`.  Python
machine types are modelled as follows: Python `int` as `Int` (arbitrary
precision, as in Python), Python `float` as `Real` (the one transcendental
the source uses is `math.log`), Python `str` as `String`, Python lists as
`List`, Python `dict`/`OrderedDict` (insertion ordered) as association
lists with explicit insert-preserving-position semantics, `None`/raised
exceptions as `Option`/`PyResult`.  `list(set(xs))` has unspecified order
in Python; we determinize it as `List.dedup`.

The external engine (pyalpm) is modelled at its interface boundary:
a sync database carries a name, a package cache and a group table;
a transaction records which packages were added and how often `release`
was invoked; whether `init_transaction`, `prepare` or `commit` raises a
`pyalpm.error` is an input of the model (fields of the handle), since the
engine itself is outside this repository.
-/

namespace Pac

/-- A pyalpm package, identified by its name, carrying opaque metadata
(the version string) that distinguishes same-named packages living in
different repositories. -/
structure Package where
  name : String
  version : String
deriving DecidableEq, Repr

/-- A pyalpm sync database: a repository name, the package cache searched
by `get_pkg`, and the group table searched by `read_grp`. -/
structure SyncDb where
  name : String
  pkgcache : List Package
  groups : List (String × List Package)
deriving DecidableEq, Repr

/-- `db.get_pkg(pkgname)`: the package of that exact name, or `None`. -/
def SyncDb.get_pkg (db : SyncDb) (pkgname : String) : Option Package :=
  db.pkgcache.find? (fun p => p.name == pkgname)

/-- `db.read_grp(group)`: the `[group_name, package_list]` pair, or `None`. -/
def SyncDb.read_grp (db : SyncDb) (group : String) : Option (String × List Package) :=
  db.groups.find? (fun g => g.1 == group)

/-- A Python `OrderedDict` of sync databases keyed by repository name. -/
abbrev ODict := List (String × SyncDb)

/-- `d[k] = v` on an `OrderedDict`: an existing key keeps its position and
gets the new value; a new key is appended at the end. -/
def odInsert (d : ODict) (k : String) (v : SyncDb) : ODict :=
  if (d.lookup k).isSome then
    d.map (fun p => if p.1 == k then (k, v) else p)
  else
    d ++ [(k, v)]

/-- `.values()` view of an `OrderedDict`. -/
def odValues (d : ODict) : List SyncDb :=
  d.map Prod.snd

/-- Result of `Pac.find_sync_package`: the Python function returns either
`(True, package)` or `(False, error_message)`. -/
inductive FindResult where
  | found (pkg : Package)
  | notFound (msg : String)
deriving DecidableEq, Repr

/-- The loop body of `find_sync_package`: scan databases in order,
returning the first `get_pkg` hit. -/
def find_in_dbs (pkgname : String) : List SyncDb → FindResult
  | [] => .notFound ("Package '" ++ pkgname ++ "' was not found.")
  | db :: rest =>
    match db.get_pkg pkgname with
    | some pkg => .found pkg
    | none => find_in_dbs pkgname rest

/-- `Pac.find_sync_package(pkgname, syncdbs)`: iterates `syncdbs.values()`
in order and returns the first database's hit, else `(False, message)`. -/
def find_sync_package (pkgname : String) (syncdbs : ODict) : FindResult :=
  find_in_dbs pkgname (odValues syncdbs)

/-- An alpm transaction.  `prepare_raises`/`commit_raises` are the engine
behaviour for this transaction (the engine is external); `release_count`
counts invocations of `transaction.release()`; `added` records the
packages passed to `transaction.add_pkg`, in order. -/
structure Transaction where
  prepare_raises : Bool
  commit_raises : Bool
  release_count : Nat
  added : List Package
deriving DecidableEq, Repr

/-- `transaction.prepare()`: raises `pyalpm.error` when the engine fails. -/
def Transaction.prepare (t : Transaction) : Except String Transaction :=
  if t.prepare_raises then .error "pyalpm.error in prepare" else .ok t

/-- `transaction.commit()`: raises `pyalpm.error` when the engine fails. -/
def Transaction.commit (t : Transaction) : Except String Transaction :=
  if t.commit_raises then .error "pyalpm.error in commit" else .ok t

/-- `transaction.release()`. -/
def Transaction.release (t : Transaction) : Transaction :=
  { t with release_count := t.release_count + 1 }

/-- `transaction.add_pkg(pkg)`. -/
def Transaction.add_pkg (t : Transaction) (pkg : Package) : Transaction :=
  { t with added := t.added ++ [pkg] }

/-- `Pac.finalize_transaction(transaction)`: `prepare()` then `commit()`;
on a `pyalpm.error` from either, log, `release()` and return `False`;
otherwise `release()` and return `True`.  The returned pair is the Python
return value together with the final transaction state. -/
def finalize_transaction (t : Transaction) : Bool × Transaction :=
  match t.prepare with
  | .error _ => (false, t.release)
  | .ok t1 =>
    match t1.commit with
    | .error _ => (false, t1.release)
    | .ok t2 => (true, t2.release)

/-- The alpm handle visible to `install`: the ordered list returned by
`handle.get_syncdbs()`, plus the (external) engine behaviour: whether
`handle.init_transaction` raises, and whether the created transaction's
`prepare`/`commit` raise. -/
structure Handle where
  syncdbs : List SyncDb
  init_raises : Bool
  prepare_raises : Bool
  commit_raises : Bool
deriving DecidableEq, Repr

/-- `Pac.init_transaction(options)`: returns `None` when the engine raises
`pyalpm.error` (the error is logged); otherwise a fresh transaction.  The
engine option flags (`nodeps`, `dbonly`, ...) are forwarded verbatim to
the external engine and have no further effect inside this module, so they
are not part of the transaction model. -/
def init_transaction (h : Handle) : Option Transaction :=
  if h.init_raises then none
  else some { prepare_raises := h.prepare_raises, commit_raises := h.commit_raises,
              release_count := 0, added := [] }

/-- `Pac.get_group_pkgs(group)`: first repository (in `get_syncdbs()`
order) whose `read_grp` is not `None`; returns its member-package list. -/
def get_group_pkgs (h : Handle) (group : String) : Option (List Package) :=
  h.syncdbs.findSome? (fun repo => (repo.read_grp group).map Prod.snd)

/-- A Python call outcome: a normal return value, or an uncaught
exception. -/
inductive PyResult (α : Type) where
  | ok (val : α)
  | exn (msg : String)
deriving DecidableEq, Repr

/-- The fixed list `one_repo_groups_names = ['cinnamon', 'mate', 'mate-extra']`. -/
def one_repo_groups_names : List String :=
  ["cinnamon", "mate", "mate-extra"]

/-- The set `one_repo_pkgs` built by `install` from the antergos database:
for each group name, `read_grp`; a missing group is replaced by
`['None', []]` (contributing no members); the members of all groups are
unioned.  Note the members are `pyalpm.Package` OBJECTS, not names. -/
def one_repo_pkgs_of (antergos_db : SyncDb) : List Package :=
  ((one_repo_groups_names.map (fun gname =>
      match antergos_db.read_grp gname with
      | some grp => grp
      | none => ("None", []))).map Prod.snd).flatten

/-- Python's `name in one_repo_pkgs` where `name` is a `str` and the set
members are `pyalpm.Package` objects: equality between a `str` and a
`Package` is `False` in Python (the C extension's rich comparison returns
`NotImplemented` for non-`Package` operands and Python falls back to
identity), so this membership test never succeeds. -/
def str_eq_package (_name : String) (_p : Package) : Bool :=
  false

/-- The `repos` OrderedDict built by `install`:
`for syncdb in handle.get_syncdbs(): repos[syncdb.name] = syncdb`. -/
def repos_od (h : Handle) : ODict :=
  h.syncdbs.foldl (fun d db => odInsert d db.name db) []

/-- One iteration of the first resolution loop of `install` for a single
requested `name`: the sublist of names it appends to `targets`.
`_repos` is `antdb` when `name in one_repo_pkgs` (see `str_eq_package`),
else all `repos`; a found package's name is appended unless it is in
`conflicts`; otherwise a group lookup is attempted and each member's name
is appended unless in `conflicts`; an unresolvable name only logs. -/
def resolve_one_core (h : Handle) (antdb repos : ODict) (one_repo_pkgs : List Package)
    (conflicts : List String) (name : String) : List String :=
  match find_sync_package name
      (if one_repo_pkgs.any (fun p => str_eq_package name p) then antdb else repos) with
  | .found pkg => if pkg.name ∈ conflicts then [] else [pkg.name]
  | .notFound _ =>
    match get_group_pkgs h name with
    | some group_pkgs =>
      group_pkgs.foldl (fun acc gp => if gp.name ∈ conflicts then acc else acc ++ [gp.name]) []
    | none => []

/-- `resolve_one_core` with `antdb`, `repos` and `one_repo_pkgs` as
`install` computes them from the handle (empty when no repository is
named `antergos`; `install` raises in that case before resolving). -/
def resolve_one (h : Handle) (conflicts : List String) (name : String) : List String :=
  match h.syncdbs.filter (fun db => db.name == "antergos") with
  | [] => []
  | antergos_db :: _ =>
    resolve_one_core h (odInsert [] "antergos" antergos_db) (repos_od h)
      (one_repo_pkgs_of antergos_db) conflicts name

/-- The deduplicated target list computed by the first half of
`Pac.install`: deduplicate the requested names, resolve each (see
`resolve_one_core`), deduplicate the result (`targets = list(set(targets))`). -/
def install_targets (h : Handle) (pkgs conflicts : List String) : List String :=
  match h.syncdbs.filter (fun db => db.name == "antergos") with
  | [] => []
  | antergos_db :: _ =>
    ((pkgs.dedup).foldl
      (fun acc name =>
        acc ++ resolve_one_core h (odInsert [] "antergos" antergos_db) (repos_od h)
          (one_repo_pkgs_of antergos_db) conflicts name) []).dedup

/-- The second loop of `install`: `num_targets` iterations of
`find_sync_package(targets.pop(), repos)` — `pop()` takes from the END of
the list, so targets are re-resolved in reverse order, each against ALL
repositories; found packages are added to the transaction, a miss only
logs a warning. -/
def add_targets (tr : Transaction) (targets : List String) (repos : ODict) : Transaction :=
  targets.reverse.foldl
    (fun t name =>
      match find_sync_package name repos with
      | .found pkg => t.add_pkg pkg
      | .notFound _ => t) tr

/-- `Pac.install(pkgs, conflicts, options)`.  Raises (`PyResult.exn`) when
the package list is empty or when no sync database is named `antergos`
(`db_match[0]` raises `IndexError`).  Returns the Python boolean result
paired with the final transaction state when one was created.  The
mutation of `self.total_packages_to_download` (a progress counter) has no
effect on any behaviour modelled here and is omitted. -/
def install (h : Handle) (pkgs conflicts : List String) :
    PyResult (Bool × Option Transaction) :=
  if pkgs.isEmpty then .exn "Package list is empty"
  else if (h.syncdbs.filter (fun db => db.name == "antergos")).isEmpty then
    .exn "IndexError: db_match[0]"
  else
    let targets := install_targets h pkgs conflicts
    if targets.isEmpty then .ok (false, none)
    else
      match init_transaction h with
      | none => .ok (false, none)
      | some tr =>
        let tr := add_targets tr targets (repos_od h)
        let r := finalize_transaction tr
        .ok (r.1, some r.2)

/-! ## Event channel and progress callbacks -/

/-- A Python value as it flows through the event pipeline: a `str` or a
number (`int`/`float`, both modelled as reals — Python promotes the ints
used here to floats at the first division). -/
inductive PyVal where
  | str (s : String)
  | num (x : ℝ)

/-- Python `==` on event texts.  Two strings compare by content; two
numbers by value; a `str` never equals a number (Python returns `False`
for cross-type `==` here). -/
noncomputable def pyValBeq : PyVal → PyVal → Bool
  | .str a, .str b => a == b
  | .num a, .num b => decide (a = b)
  | _, _ => false

/-- Two-digit zero padding for the fractional part of a percent text. -/
def pad2 (k : ℕ) : String :=
  if k < 10 then "0" ++ toString k else toString k

/-- The percent formatting `'...:.2f...'.format(x)` of a real value:
round to two decimals and render.  Floats are modelled as reals; the
rounding of exact ties (IEEE formatting rounds half to even, `round` here
rounds half away from zero) and the sign of a negative zero are below the
resolution of every property proved about this function's callers. -/
noncomputable def format2f (x : ℝ) : String :=
  let n : ℤ := round (x * 100)
  let sign := if n < 0 then "-" else ""
  sign ++ toString (n.natAbs / 100) ++ "." ++ pad2 (n.natAbs % 100)

/-- Python `str(x)` for an event text, used when an error text is
interpolated into the frame-annotated message.  Every error text the
source produces is already a `str`; the number case is rendered with the
two-decimal formatter (its exact spelling is never relied upon). -/
noncomputable def pyValStr : PyVal → String
  | .str s => s
  | .num x => format2f x

/-- The first step of `queue_event`: when the event type is `percent` the
text is replaced by its two-decimal formatting.  Formatting a `str` with
a float format code raises `ValueError` in Python, modelled as `none`. -/
noncomputable def format_event_text (event_type : String) (event_text : PyVal) :
    Option PyVal :=
  if event_type == "percent" then
    match event_text with
    | .num x => some (.str (format2f x))
    | .str _ => none
  else some event_text

/-- `self.last_event[event_type] = event_text` on the Python dict,
modelled as an association list: an existing key keeps its position, a
new key is appended. -/
def dictSet (le : List (String × PyVal)) (event_type : String) (event_text : PyVal) :
    List (String × PyVal) :=
  if (le.lookup event_type).isSome then
    le.map (fun p => if p.1 == event_type then (event_type, event_text) else p)
  else
    le ++ [(event_type, event_text)]

/-- The duplicate test of `queue_event`:
`event_type in last_event and last_event[event_type] == event_text`. -/
noncomputable def dup_check (le : List (String × PyVal)) (event_type : String)
    (event_text : PyVal) : Bool :=
  match le.lookup event_type with
  | some prev => pyValBeq prev event_text
  | none => false

/-- The error-message annotation of `queue_event`: the text is reformatted
as `text ++ ": " ++ caller frame description` (function name, file and
line of the caller, an environment input carried in the state). -/
noncomputable def augment_error (event_text : PyVal) (frame : String) : PyVal :=
  .str (pyValStr event_text ++ ": " ++ frame)

/-- The consumer queue (`queue.Queue`): `maxsize == 0` means unbounded,
as in Python; `items` is the FIFO content, oldest first. -/
structure CQueue where
  maxsize : ℕ
  items : List (String × PyVal)

/-- `queue.Queue.full()` as `put_nowait` tests it: bounded and at (or
over) capacity. -/
def CQueue.full (q : CQueue) : Bool :=
  0 < q.maxsize && q.maxsize ≤ q.items.length

/-- `put_nowait(item)`: appends, or raises `queue.Full` (`none`) when the
queue is full. -/
def CQueue.put_nowait (q : CQueue) (item : String × PyVal) : Option CQueue :=
  if q.full then none else some { q with items := q.items ++ [item] }

/-- How a `queue_event` call returns control: a plain return; an immediate
`sys.exit(code)`; or `callback_queue.join()` — blocking until the consumer
has drained the queue — followed by `sys.exit(code)`. -/
inductive QEOutcome where
  | ret
  | exitNow (code : ℕ)
  | drainThenExit (code : ℕ)
deriving DecidableEq, Repr

/-- The mutable state of a `Pac` instance that the event and download
callbacks read and write: the per-kind last event text, the optional
consumer queue, the caller-frame description used for error annotation,
and the download-progress fields initialised in `__init__`. -/
structure PacState where
  last_event : List (String × PyVal)
  callback_queue : Option CQueue
  frame : String
  last_dl_filename : Option String
  last_dl_progress : ℝ
  last_dl_total_size : ℤ
  total_download_size : ℤ
  downloaded_packages : ℕ

/-- The tail of `queue_event` after the duplicate test: record the text in
`last_event`, annotate an error text with the caller frame, then either
log-and-maybe-exit (no consumer queue) or `put_nowait` — dropping the
event with a logged warning when the queue is full — and, for an error,
`join()` the queue and exit. -/
noncomputable def queue_event_core (st : PacState) (event_type : String)
    (event_text : PyVal) : PacState × QEOutcome :=
  let st1 := { st with last_event := dictSet st.last_event event_type event_text }
  let out_text := if event_type == "error" then augment_error event_text st1.frame
                  else event_text
  match st1.callback_queue with
  | none =>
    if event_type == "error" then (st1, .exitNow 1) else (st1, .ret)
  | some q =>
    let q1 := match q.put_nowait (event_type, out_text) with
              | some q2 => q2
              | none => q
    let st2 := { st1 with callback_queue := some q1 }
    if event_type == "error" then (st2, .drainThenExit 1) else (st2, .ret)

/-- `Pac.queue_event(event_type, event_text)`.  A `percent` text is
formatted to two decimals first (a non-number raises, `none`); an event
whose (formatted) text equals the last recorded text of the same type
returns immediately with no effect; otherwise `queue_event_core` runs. -/
noncomputable def queue_event (st : PacState) (event_type : String)
    (event_text : PyVal) : Option (PacState × QEOutcome) :=
  match format_event_text event_type event_text with
  | none => none
  | some txt =>
    if dup_check st.last_event event_type txt then some (st, .ret)
    else some (queue_event_core st event_type txt)

/-- Python true division of two ints: a float, or `ZeroDivisionError`
(`none`) when the divisor is zero. -/
noncomputable def pyDiv (a b : ℤ) : Option ℝ :=
  if b = 0 then none else some ((a : ℝ) / (b : ℝ))

/-- The message `'Installing ...'.format(target, current, total)` of
`cb_progress`. -/
def installing_msg (target : String) (current total : ℤ) : String :=
  "Installing " ++ target ++ " (" ++ toString current ++ "/" ++ toString total ++ ")"

/-- `Pac.cb_progress(target, percent, total, current)`: with a non-empty
`target`, queue the `info` message and then a `percent` event valued
`current / total` (an unguarded division — `ZeroDivisionError` when
`total == 0`, after the `info` event was already queued); with an empty
`target`, queue a `percent` event valued `percent / 100`. -/
noncomputable def cb_progress (st : PacState) (target : String) (percent : ℤ)
    (total current : ℤ) : Option PacState :=
  if target ≠ "" then
    (queue_event st "info" (.str (installing_msg target current total))).bind
      (fun p =>
        match pyDiv current total with
        | none => none
        | some frac => (queue_event p.1 "percent" (.num frac)).map Prod.fst)
  else
    (queue_event st "percent" (.num ((percent : ℝ) / 100))).map Prod.fst

/-- The unknown-total-size download heuristic of `cb_dl`:
`(math.log(1 + transfer / 1024) ** 2 / 2) / 100`. -/
noncomputable def unknown_size_progress (transfer : ℤ) : ℝ :=
  (Real.log (1 + (transfer : ℝ) / 1024)) ^ 2 / 2 / 100

/-- The progress value computed by the same-file branch of `cb_dl`:
exact `transfer / last_dl_total_size` when the total is known (positive),
else the logarithmic heuristic. -/
noncomputable def dl_progress (st : PacState) (transfer : ℤ) : ℝ :=
  if 0 < st.last_dl_total_size then
    (transfer : ℝ) / (st.last_dl_total_size : ℝ)
  else unknown_size_progress transfer

/-- `Pac.cb_dl(filename, transfer, total)`.  A new stream (filename or
total changed) resets the per-file fields, labels the download from the
filename suffix (database update when no total download size is recorded,
package download otherwise, incrementing the package counter), and queues
the label and a zero `percent`.  A continuing stream computes
`dl_progress` and queues a `percent` event only when the value strictly
exceeds the last reported progress, updating it. -/
noncomputable def cb_dl (st : PacState) (filename : String) (transfer total : ℤ) :
    Option PacState :=
  if some filename ≠ st.last_dl_filename ∨ st.last_dl_total_size ≠ total then
    let st1 := { st with last_dl_filename := some filename,
                         last_dl_total_size := total,
                         last_dl_progress := 0 }
    if st1.total_download_size = 0 then
      let fname := if filename.endsWith ".db" then filename.dropRight ".db".length
                   else filename
      let text := "Updating " ++ fname ++ " database"
      (queue_event st1 "info" (.str text)).bind
        (fun p => (queue_event p.1 "percent" (.num 0)).map Prod.fst)
    else
      let fname := if filename.endsWith ".pkg.tar.xz" then
                     filename.dropRight ".pkg.tar.xz".length
                   else filename
      let st2 := { st1 with downloaded_packages := st1.downloaded_packages + 1 }
      let text := "Downloading " ++ fname ++ "..."
      (queue_event st2 "info" (.str text)).bind
        (fun p => (queue_event p.1 "percent" (.num 0)).map Prod.fst)
  else
    let progress := dl_progress st transfer
    if st.last_dl_progress < progress then
      let st1 := { st with last_dl_progress := progress }
      (queue_event st1 "percent" (.num progress)).map Prod.fst
    else some st

/-! ## Concrete repository states used as test inputs -/

/-- The `antergos` package `nemo 1.0-1`, a member of the `cinnamon` group. -/
def nemoAnt : Package := { name := "nemo", version := "1.0-1" }

/-- A same-named package `nemo 2.0-1` living in the `extra` repository. -/
def nemoExtra : Package := { name := "nemo", version := "2.0-1" }

/-- An `extra` repository that also carries a package called `nemo`. -/
def extraDb : SyncDb := { name := "extra", pkgcache := [nemoExtra], groups := [] }

/-- The `antergos` repository: carries `nemo 1.0-1`, and its `cinnamon`
group lists that package. -/
def antergosDb : SyncDb :=
  { name := "antergos", pkgcache := [nemoAnt], groups := [("cinnamon", [nemoAnt])] }

/-- A handle whose repository priority order is `[extra, antergos]` and
whose engine operations all succeed. -/
def h1 : Handle :=
  { syncdbs := [extraDb, antergosDb], init_raises := false,
    prepare_raises := false, commit_raises := false }

/-- Same repositories as `h1`, but `commit` raises a `pyalpm.error`. -/
def h2 : Handle := { h1 with commit_raises := true }

/-! ## Helper lemmas -/

/-- `finalize_transaction` increments the release count by exactly one. -/
theorem finalize_count (t : Transaction) :
    (finalize_transaction t).2.release_count = t.release_count + 1 := by
  obtain ⟨p, c, r, a⟩ := t
  cases p <;> cases c <;>
    simp [finalize_transaction, Transaction.prepare, Transaction.commit, Transaction.release]

/-- `finalize_transaction` reports success exactly when neither `prepare`
nor `commit` raises. -/
theorem finalize_fst (t : Transaction) :
    (finalize_transaction t).1 = (!t.prepare_raises && !t.commit_raises) := by
  obtain ⟨p, c, r, a⟩ := t
  cases p <;> cases c <;>
    simp [finalize_transaction, Transaction.prepare, Transaction.commit, Transaction.release]

/-- The second `install` loop never changes the engine failure flags. -/
theorem add_targets_flags (targets : List String) (repos : ODict) (t : Transaction) :
    (add_targets t targets repos).prepare_raises = t.prepare_raises ∧
    (add_targets t targets repos).commit_raises = t.commit_raises := by
  unfold add_targets
  generalize targets.reverse = l
  induction l generalizing t with
  | nil => exact ⟨rfl, rfl⟩
  | cons x xs ih =>
    simp only [List.foldl_cons]
    rcases hf : find_sync_package x repos with pkg | msg
    · exact ih (t.add_pkg pkg)
    · exact ih t

/-- Every name the per-name resolution step emits avoids `conflicts`. -/
theorem resolve_group_fold_no_conflict (conflicts : List String) :
    ∀ (gpkgs : List Package) (acc : List String),
      (∀ x ∈ acc, x ∉ conflicts) →
      ∀ x ∈ gpkgs.foldl
          (fun acc gp => if gp.name ∈ conflicts then acc else acc ++ [gp.name]) acc,
        x ∉ conflicts := by
  intro gpkgs
  induction gpkgs with
  | nil => intro acc hacc x hx; exact hacc x hx
  | cons gp rest ih =>
    intro acc hacc x hx
    simp only [List.foldl_cons] at hx
    by_cases hc : gp.name ∈ conflicts
    · rw [if_pos hc] at hx; exact ih acc hacc x hx
    · rw [if_neg hc] at hx
      refine ih (acc ++ [gp.name]) ?_ x hx
      intro y hy
      rcases List.mem_append.mp hy with hy | hy
      · exact hacc y hy
      · rcases List.mem_singleton.mp hy with rfl; exact hc

/-- `resolve_one_core` only emits names outside `conflicts`. -/
theorem resolve_one_core_no_conflict (h : Handle) (antdb repos : ODict)
    (orp : List Package) (conflicts : List String) (n name : String) :
    name ∈ resolve_one_core h antdb repos orp conflicts n → name ∉ conflicts := by
  intro hmem
  unfold resolve_one_core at hmem
  have hany : (orp.any fun p => str_eq_package n p) = false := by simp [str_eq_package]
  simp only [hany, Bool.false_eq_true, if_false] at hmem
  rcases hf : find_sync_package n repos with pkg | msg <;> simp only [hf] at hmem
  · by_cases hc : pkg.name ∈ conflicts
    · rw [if_pos hc] at hmem; exact absurd hmem (List.not_mem_nil name)
    · rw [if_neg hc] at hmem
      rcases List.mem_singleton.mp hmem with rfl; exact hc
  · rcases hg : get_group_pkgs h n with _ | gpkgs <;> simp only [hg] at hmem
    · exact absurd hmem (List.not_mem_nil name)
    · exact resolve_group_fold_no_conflict conflicts gpkgs [] (by intro y hy; cases hy)
        name hmem

/-- Accumulating with `++` over a fold distributes over the accumulator. -/
theorem foldl_append_acc (f : String → List String) :
    ∀ (l : List String) (acc : List String),
      l.foldl (fun a n => a ++ f n) acc = acc ++ l.foldl (fun a n => a ++ f n) [] := by
  intro l
  induction l with
  | nil => intro acc; simp
  | cons x xs ih =>
    intro acc
    simp only [List.foldl_cons, List.nil_append]
    rw [ih (acc ++ f x), ih (f x), List.append_assoc]

/-! ## Claim C2 -/

/-- C2: for every transaction passed to `finalize_transaction`, `release`
is invoked exactly once on every exit path — success, a `prepare` error,
and a `commit` error — and on either error the function returns failure
(it returns `True` exactly when neither step raises). -/
theorem finalize_transaction_releases_once :
    ∀ t : Transaction,
      (finalize_transaction t).2.release_count = t.release_count + 1 ∧
      (finalize_transaction t).1 = (!t.prepare_raises && !t.commit_raises) :=
  fun t => ⟨finalize_count t, finalize_fst t⟩

/-! ## Claim C4 -/

/-- `find_in_dbs` returns the hit of the first database containing the
name when every earlier database misses. -/
theorem find_in_dbs_first (name : String) (p : Package) :
    ∀ (dbs : List SyncDb) (i : ℕ) (hi : i < dbs.length),
      dbs[i].get_pkg name = some p →
      (∀ k, k < i → ∀ (hk : k < dbs.length), dbs[k].get_pkg name = none) →
      find_in_dbs name dbs = .found p := by
  intro dbs
  induction dbs with
  | nil => intro i hi; exact absurd hi (Nat.not_lt_zero i)
  | cons db rest ih =>
    intro i hi hhit hmiss
    match i with
    | 0 =>
      simp only [List.getElem_cons_zero] at hhit
      unfold find_in_dbs
      rw [hhit]
    | Nat.succ j =>
      have h0 : db.get_pkg name = none := by
        have := hmiss 0 (Nat.succ_pos j) (by simp)
        simpa using this
      unfold find_in_dbs
      rw [h0]
      refine ih j (by simpa using hi) (by simpa using hhit) ?_
      intro k hk hkl
      have := hmiss (k + 1) (Nat.succ_lt_succ hk) (by simpa using hkl)
      simpa using this

/-- `find_in_dbs` reports a miss exactly when every database misses. -/
theorem find_in_dbs_notFound (name : String) :
    ∀ dbs : List SyncDb,
      (∃ msg, find_in_dbs name dbs = .notFound msg) ↔
      ∀ db ∈ dbs, db.get_pkg name = none := by
  intro dbs
  induction dbs with
  | nil => simp [find_in_dbs]
  | cons db rest ih =>
    unfold find_in_dbs
    rcases hp : db.get_pkg name with _ | pkg
    · simpa [hp] using ih
    · simp [hp]

/-- C4: over the priority-ordered `.values()` sequence of the databases
handed to `find_sync_package`, the package returned is the one from the
first database (lowest index) containing the requested name — so with the
name present at indices `i < j` the result comes from `i`, never `j` —
and `(False, message)` is returned exactly when no database contains the
name. -/
theorem find_sync_package_priority :
    (∀ (syncdbs : ODict) (name : String) (i : ℕ)
       (hi : i < (odValues syncdbs).length) (p : Package),
       (odValues syncdbs)[i].get_pkg name = some p →
       (∀ k, k < i → ∀ (hk : k < (odValues syncdbs).length),
          (odValues syncdbs)[k].get_pkg name = none) →
       find_sync_package name syncdbs = .found p) ∧
    (∀ (syncdbs : ODict) (name : String),
       (∃ msg, find_sync_package name syncdbs = .notFound msg) ↔
       ∀ db ∈ odValues syncdbs, db.get_pkg name = none) := by
  constructor
  · intro syncdbs name i hi p hhit hmiss
    exact find_in_dbs_first name p (odValues syncdbs) i hi hhit hmiss
  · intro syncdbs name
    exact find_in_dbs_notFound name (odValues syncdbs)

/-- Witness for C4: with databases ordered `[extra, antergos]` and `nemo`
present only in the second, the lookup falls through the first database
and returns the `antergos` package. -/
theorem find_sync_package_priority_witness :
    find_sync_package "nemo" [("empty", { name := "empty", pkgcache := [], groups := [] }),
      ("antergos", antergosDb)] = .found nemoAnt := by
  refine find_sync_package_priority.1
    [("empty", { name := "empty", pkgcache := [], groups := [] }), ("antergos", antergosDb)]
    "nemo" 1 (by decide) nemoAnt rfl ?_
  intro k hk hkl
  interval_cases k
  rfl

/-! ## Claim C1 -/

/-- C1: evidence for the failing input.  `nemo` is a member of the
`antergos` `cinnamon` group (so it belongs to the exclusive-source set)
and `antergos` itself carries `nemo 1.0-1`; yet `install` on the handle
whose repository order is `[extra, antergos]` adds `nemo 2.0-1`, the
package of the non-exclusive `extra` repository, to the transaction.
Both causes are in the source: the membership test `name in one_repo_pkgs`
compares a `str` against `pyalpm.Package` objects and never succeeds, and
the second resolution loop re-resolves every target against ALL
repositories. -/
theorem install_exclusive_source_violated :
    install h1 ["nemo"] [] =
      .ok (true, some { prepare_raises := false, commit_raises := false,
                        release_count := 1, added := [nemoExtra] }) ∧
    nemoAnt ∈ one_repo_pkgs_of antergosDb ∧
    nemoAnt.name = "nemo" ∧
    nemoExtra ∈ extraDb.pkgcache ∧
    nemoExtra ∉ antergosDb.pkgcache := by
  refine ⟨by decide, by decide, rfl, by decide, by decide⟩

/-! ## Claim C3 -/

/-- C3: for every handle, requested-name list and conflicts list, no name
in the deduplicated target set built by `install` is in `conflicts`. -/
theorem install_targets_exclude_conflicts :
    ∀ (h : Handle) (pkgs conflicts : List String) (name : String),
      name ∈ install_targets h pkgs conflicts → name ∉ conflicts := by
  intro h pkgs conflicts name hmem
  unfold install_targets at hmem
  rcases hf : h.syncdbs.filter (fun db => db.name == "antergos") with _ | ⟨antergos_db, rest⟩ <;>
    rw [hf] at hmem
  · exact absurd hmem (List.not_mem_nil name)
  · rw [List.mem_dedup] at hmem
    revert hmem
    generalize pkgs.dedup = l
    have main : ∀ (l : List String) (acc : List String),
        (∀ x ∈ acc, x ∉ conflicts) →
        ∀ x ∈ l.foldl (fun acc n => acc ++ resolve_one_core h
            (odInsert [] "antergos" antergos_db) (repos_od h)
            (one_repo_pkgs_of antergos_db) conflicts n) acc,
          x ∉ conflicts := by
      intro l
      induction l with
      | nil => intro acc hacc x hx; exact hacc x hx
      | cons n rest ih =>
        intro acc hacc x hx
        simp only [List.foldl_cons] at hx
        refine ih (acc ++ _) ?_ x hx
        intro y hy
        rcases List.mem_append.mp hy with hy | hy
        · exact hacc y hy
        · exact resolve_one_core_no_conflict h _ _ _ conflicts n y hy
    intro hmem
    exact main l [] (by intro y hy; cases hy) name hmem

/-- Witness for C3: `nemo` resolves and lands in the target set for the
conflicts list `["firefox"]`, and indeed is not in that list. -/
theorem install_targets_exclude_conflicts_witness :
    "nemo" ∈ install_targets h1 ["nemo"] ["firefox"] ∧ "nemo" ∉ ["firefox"] :=
  ⟨by decide, install_targets_exclude_conflicts h1 ["nemo"] ["firefox"] "nemo" (by decide)⟩

/-! ## Claim C5 -/

/-- C5 counterexample: with the target set `["nemo"]` (nonempty) but a
failing `commit`, `install` still returns `False` — so "returns False
exactly when the final target set is empty" is false as stated. -/
theorem install_false_with_nonempty_targets :
    install h2 ["nemo"] [] =
      .ok (false, some { prepare_raises := false, commit_raises := true,
                         release_count := 1, added := [nemoExtra] }) ∧
    install_targets h2 ["nemo"] [] = ["nemo"] := by
  exact ⟨by decide, by decide⟩

/-- C5 (amended): when the engine itself does not fail (transaction
initialization, `prepare` and `commit` all succeed), `install` returns the
reported `False` — without ever creating a transaction — exactly when the
final deduplicated target set is empty; and a requested name that
resolves to neither a package nor a group contributes nothing: it is
skipped and the remaining names resolve exactly as if it were absent. -/
theorem install_resolution_failure_iff :
    (∀ (h : Handle) (pkgs conflicts : List String),
       pkgs ≠ [] →
       (h.syncdbs.filter (fun db => db.name == "antergos")).isEmpty = false →
       h.init_raises = false → h.prepare_raises = false → h.commit_raises = false →
       (install h pkgs conflicts = .ok (false, none) ↔
        install_targets h pkgs conflicts = [])) ∧
    (∀ (h : Handle) (conflicts : List String) (name : String) (rest : List String),
       (∃ msg, find_sync_package name (repos_od h) = .notFound msg) →
       get_group_pkgs h name = none →
       name ∉ rest →
       install_targets h (name :: rest) conflicts = install_targets h rest conflicts) := by
  constructor
  · intro h pkgs conflicts hpkgs hfilter hinit hprep hcommit
    have hne : pkgs.isEmpty = false := by
      cases pkgs with
      | nil => exact absurd rfl hpkgs
      | cons a l => rfl
    unfold install
    rw [hne, hfilter]
    simp only [Bool.false_eq_true, if_false]
    by_cases ht : (install_targets h pkgs conflicts).isEmpty
    · have ht' : install_targets h pkgs conflicts = [] := by
        cases hcase : install_targets h pkgs conflicts with
        | nil => rfl
        | cons a l => rw [hcase] at ht; exact absurd ht (by simp)
      simp [ht, ht']
    · have ht' : install_targets h pkgs conflicts ≠ [] := by
        intro hcase; rw [hcase] at ht; exact ht rfl
      rw [if_neg ht]
      unfold init_transaction
      rw [hinit]
      simp only [Bool.false_eq_true, if_false]
      have hflags := add_targets_flags (install_targets h pkgs conflicts) (repos_od h)
        { prepare_raises := h.prepare_raises, commit_raises := h.commit_raises,
          release_count := 0, added := [] }
      have hfst : (finalize_transaction (add_targets
          { prepare_raises := h.prepare_raises, commit_raises := h.commit_raises,
            release_count := 0, added := [] }
          (install_targets h pkgs conflicts) (repos_od h))).1 = true := by
        rw [finalize_fst, hflags.1, hflags.2, hprep, hcommit]
        rfl
      constructor
      · intro hres
        rw [PyResult.ok.injEq, Prod.mk.injEq] at hres
        rw [hfst] at hres
        exact absurd hres.1 (by simp)
      · intro hres; exact absurd hres ht'
  · intro h conflicts name rest hfind hgrp hnotmem
    unfold install_targets
    rcases hf : h.syncdbs.filter (fun db => db.name == "antergos") with _ | ⟨antergos_db, r⟩
    · rw [hf]
    · rw [hf]
      dsimp only
      rw [List.dedup_cons_of_not_mem hnotmem]
      simp only [List.foldl_cons, List.nil_append]
      have hone : resolve_one_core h (odInsert [] "antergos" antergos_db) (repos_od h)
          (one_repo_pkgs_of antergos_db) conflicts name = [] := by
        unfold resolve_one_core
        have hany : ((one_repo_pkgs_of antergos_db).any
            fun p => str_eq_package name p) = false := by
          simp [str_eq_package]
        simp only [hany, Bool.false_eq_true, if_false]
        obtain ⟨msg, hmsg⟩ := hfind
        rw [hmsg, hgrp]
      rw [hone]

/-- Witness for C5 (amended): on the all-repositories-healthy handle `h1`,
the failure-iff-empty equivalence holds for the request `["nemo"]`. -/
theorem install_resolution_failure_iff_witness :
    install h1 ["nemo"] [] = .ok (false, none) ↔ install_targets h1 ["nemo"] [] = [] :=
  install_resolution_failure_iff.1 h1 ["nemo"] [] (by decide) (by decide) rfl rfl rfl

/-! ## Event-pipeline helper lemmas and concrete states -/

/-- Python `==` is reflexive on event texts. -/
theorem pyValBeq_refl (t : PyVal) : pyValBeq t t = true := by
  cases t with
  | str s => simp [pyValBeq]
  | num x => simp [pyValBeq]

/-- `queue_event_core` returns with a plain `ret` for every non-`error`
event type. -/
theorem queue_event_core_snd (st : PacState) (ty : String) (txt : PyVal)
    (hty : (ty == "error") = false) :
    (queue_event_core st ty txt).2 = QEOutcome.ret := by
  obtain ⟨le, cq, fr, fn, pr, ts, td, dp⟩ := st
  cases cq <;> simp [queue_event_core, hty]

/-- `queue_event_core` never touches the download-progress fields. -/
theorem queue_event_core_keeps_dl (st : PacState) (ty : String) (txt : PyVal) :
    (queue_event_core st ty txt).1.last_dl_progress = st.last_dl_progress := by
  obtain ⟨le, cq, fr, fn, pr, ts, td, dp⟩ := st
  cases hty : ty == "error" <;> cases cq <;> simp [queue_event_core, hty]

/-- A successful `queue_event` call never changes `last_dl_progress`. -/
theorem queue_event_keeps_dl (st : PacState) (ty : String) (txt : PyVal)
    (st2 : PacState) (o : QEOutcome)
    (hq : queue_event st ty txt = some (st2, o)) :
    st2.last_dl_progress = st.last_dl_progress := by
  unfold queue_event at hq
  rcases hfmt : format_event_text ty txt with _ | t
  · simp only [hfmt] at hq
    exact Option.noConfusion hq
  · simp only [hfmt] at hq
    cases hdup : dup_check st.last_event ty t with
    | true =>
      simp only [hdup, if_true, Option.some.injEq, Prod.mk.injEq] at hq
      rw [← hq.1]
    | false =>
      simp only [hdup, Bool.false_eq_true, if_false, Option.some.injEq] at hq
      have hkeep := queue_event_core_keeps_dl st ty t
      rw [hq] at hkeep
      exact hkeep

/-- A `str`-texted event of a non-`percent`, non-`error` type is always
queued (or suppressed) with a plain return. -/
theorem queue_event_str_total (st : PacState) (ty : String) (s : String)
    (hper : (ty == "percent") = false) (herr : (ty == "error") = false) :
    ∃ st2, queue_event st ty (.str s) = some (st2, QEOutcome.ret) := by
  have hfmt : format_event_text ty (.str s) = some (.str s) := by
    unfold format_event_text
    simp only [hper, Bool.false_eq_true, if_false]
  unfold queue_event
  simp only [hfmt]
  cases hdup : dup_check st.last_event ty (.str s) with
  | true => exact ⟨st, by simp [hdup]⟩
  | false =>
    refine ⟨(queue_event_core st ty (.str s)).1, ?_⟩
    simp only [hdup, Bool.false_eq_true, if_false, Option.some.injEq]
    rw [← queue_event_core_snd st ty (.str s) herr]

/-- A numeric `percent` event is always formatted and queued (or
suppressed) with a plain return. -/
theorem queue_event_percent_total (st : PacState) (x : ℝ) :
    ∃ st2, queue_event st "percent" (.num x) = some (st2, QEOutcome.ret) := by
  have hfmt : format_event_text "percent" (.num x) = some (.str (format2f x)) := rfl
  unfold queue_event
  simp only [hfmt]
  cases hdup : dup_check st.last_event "percent" (.str (format2f x)) with
  | true => exact ⟨st, by simp [hdup]⟩
  | false =>
    refine ⟨(queue_event_core st "percent" (.str (format2f x))).1, ?_⟩
    simp only [hdup, Bool.false_eq_true, if_false, Option.some.injEq]
    rw [← queue_event_core_snd st "percent" (.str (format2f x)) rfl]

/-- A state whose last `info` event is already recorded (used to exercise
duplicate suppression). -/
def stDup : PacState :=
  { last_event := [("info", PyVal.str "Checking integrity...")],
    callback_queue := some { maxsize := 0, items := [] },
    frame := "install in pac.py:243",
    last_dl_filename := none, last_dl_progress := 0, last_dl_total_size := 0,
    total_download_size := 0, downloaded_packages := 0 }

/-- A state whose single-slot consumer queue is already full. -/
def stFull : PacState :=
  { last_event := [],
    callback_queue := some { maxsize := 1,
                             items := [("info", PyVal.str "Loading packages...")] },
    frame := "install in pac.py:243",
    last_dl_filename := none, last_dl_progress := 0, last_dl_total_size := 0,
    total_download_size := 0, downloaded_packages := 0 }

/-- A state with no consumer queue attached. -/
def stNoQ : PacState :=
  { last_event := [], callback_queue := none,
    frame := "install in pac.py:254",
    last_dl_filename := none, last_dl_progress := 0, last_dl_total_size := 0,
    total_download_size := 0, downloaded_packages := 0 }

/-- A state in the middle of downloading a 1000-byte package file. -/
def st_dl : PacState :=
  { last_event := [], callback_queue := some { maxsize := 0, items := [] },
    frame := "refresh in pac.py:226",
    last_dl_filename := some "linux-5.0-x86_64.pkg.tar.xz",
    last_dl_progress := 0, last_dl_total_size := 1000,
    total_download_size := 5000, downloaded_packages := 1 }

/-! ## Claim C6 -/

/-- C6: an event whose kind and (formatted) text coincide with the most
recently recorded event of that kind is suppressed: `queue_event` returns
normally with the state — queue included — completely unchanged. -/
theorem queue_event_suppresses_duplicate :
    ∀ (st : PacState) (event_type : String) (event_text fmtd : PyVal),
      format_event_text event_type event_text = some fmtd →
      st.last_event.lookup event_type = some fmtd →
      queue_event st event_type event_text = some (st, QEOutcome.ret) := by
  intro st ty txt f hfmt hlast
  unfold queue_event
  simp only [hfmt]
  have hdup : dup_check st.last_event ty f = true := by
    unfold dup_check
    simp only [hlast]
    exact pyValBeq_refl f
  simp [hdup]

/-- Witness for C6: re-queuing the `info` text recorded in `stDup` is a
no-op. -/
theorem queue_event_suppresses_duplicate_witness :
    queue_event stDup "info" (.str "Checking integrity...") =
      some (stDup, QEOutcome.ret) :=
  queue_event_suppresses_duplicate stDup "info" (.str "Checking integrity...")
    (.str "Checking integrity...") rfl rfl

/-! ## Claim C9 -/

/-- C9 counterexample: with the single-slot consumer queue already full,
the fatal event is NOT enqueued — `put_nowait` raises `queue.Full` and
the event is dropped with a logged warning — while `queue_event` still
blocks on the drain and exits.  The queue the consumer drains holds no
`error`-kind event, refuting "the consumer observes the fatal event". -/
theorem queue_event_error_dropped_when_full :
    queue_event stFull "error" (.str "bootloader install failed") =
      some ({ stFull with
                last_event := [("error", PyVal.str "bootloader install failed")] },
            QEOutcome.drainThenExit 1) ∧
    ({ stFull with
         last_event := [("error", PyVal.str "bootloader install failed")] } :
       PacState).callback_queue =
      some { maxsize := 1, items := [("info", PyVal.str "Loading packages...")] } ∧
    ∀ p ∈ [("info", PyVal.str "Loading packages...")], p.1 ≠ "error" := by
  refine ⟨rfl, rfl, ?_⟩
  intro p hp
  rcases List.mem_singleton.mp hp with rfl
  decide

/-- C9 (amended): a non-duplicate `error` event with no consumer queue is
logged and exits immediately with status 1; with a consumer queue it is
appended to the queue — so the consumer sees it after every earlier event
— exactly when the queue is not full (a full queue drops it with a
warning), and in either case the producer then blocks until the consumer
has drained the queue and exits with status 1. -/
theorem queue_event_error_paths :
    ∀ (st : PacState) (txt : PyVal),
      dup_check st.last_event "error" txt = false →
      ((st.callback_queue = none →
         queue_event st "error" txt =
           some ({ st with last_event := dictSet st.last_event "error" txt },
                 QEOutcome.exitNow 1)) ∧
       (∀ q : CQueue, st.callback_queue = some q → q.full = false →
         queue_event st "error" txt =
           some ({ st with
                     last_event := dictSet st.last_event "error" txt,
                     callback_queue := some { q with
                       items := q.items ++ [("error", augment_error txt st.frame)] } },
                 QEOutcome.drainThenExit 1)) ∧
       (∀ q : CQueue, st.callback_queue = some q → q.full = true →
         queue_event st "error" txt =
           some ({ st with
                     last_event := dictSet st.last_event "error" txt,
                     callback_queue := some q },
                 QEOutcome.drainThenExit 1))) := by
  intro st txt hdup
  have hfmt : format_event_text "error" txt = some txt := rfl
  have hproj : ({ st with last_event := dictSet st.last_event "error" txt } :
      PacState).callback_queue = st.callback_queue := rfl
  refine ⟨?_, ?_, ?_⟩
  · intro hq
    unfold queue_event queue_event_core
    simp only [hfmt, hdup, Bool.false_eq_true, if_false]
    rw [hproj, hq]
    rfl
  · intro q hq hfull
    unfold queue_event queue_event_core
    simp only [hfmt, hdup, Bool.false_eq_true, if_false]
    rw [hproj, hq]
    simp only [CQueue.put_nowait, hfull, Bool.false_eq_true, if_false]
    rfl
  · intro q hq hfull
    unfold queue_event queue_event_core
    simp only [hfmt, hdup, Bool.false_eq_true, if_false]
    rw [hproj, hq]
    simp only [CQueue.put_nowait, hfull, if_true]
    rfl

/-- Witness for C9 (amended): with no consumer attached, a fresh error is
recorded and the process exits immediately with status 1. -/
theorem queue_event_error_paths_witness :
    queue_event stNoQ "error" (.str "alpm is not initialised") =
      some ({ stNoQ with
                last_event := dictSet stNoQ.last_event "error"
                  (.str "alpm is not initialised") },
            QEOutcome.exitNow 1) :=
  (queue_event_error_paths stNoQ (.str "alpm is not initialised") rfl).1 rfl

/-! ## Claim C7 -/

/-- C7: on a continuing download stream (same filename and same total as
the previous call), `cb_dl` emits a `percent` event only when the newly
computed progress strictly exceeds the last reported value — otherwise it
is a complete no-op — and on emission the stored last progress becomes
the emitted value, so the per-file sequence of emitted values is strictly
increasing. -/
theorem cb_dl_strictly_increasing :
    ∀ (st : PacState) (filename : String) (transfer total : ℤ),
      st.last_dl_filename = some filename →
      st.last_dl_total_size = total →
      ((dl_progress st transfer ≤ st.last_dl_progress →
          cb_dl st filename transfer total = some st) ∧
       (st.last_dl_progress < dl_progress st transfer →
          cb_dl st filename transfer total =
            (queue_event { st with last_dl_progress := dl_progress st transfer }
               "percent" (.num (dl_progress st transfer))).map Prod.fst ∧
          ∀ st2, cb_dl st filename transfer total = some st2 →
            st2.last_dl_progress = dl_progress st transfer)) := by
  intro st fn transfer total hfn htot
  have hcond : ¬(some fn ≠ st.last_dl_filename ∨ st.last_dl_total_size ≠ total) := by
    push_neg
    exact ⟨hfn.symm, htot⟩
  constructor
  · intro hle
    unfold cb_dl
    rw [if_neg hcond]
    dsimp only
    rw [if_neg (not_lt.mpr hle)]
  · intro hlt
    have hbranch : cb_dl st fn transfer total =
        (queue_event { st with last_dl_progress := dl_progress st transfer }
           "percent" (.num (dl_progress st transfer))).map Prod.fst := by
      unfold cb_dl
      rw [if_neg hcond]
      dsimp only
      rw [if_pos hlt]
    refine ⟨hbranch, ?_⟩
    intro st2 h2
    rw [hbranch] at h2
    obtain ⟨⟨st3, o⟩, hq, hsub⟩ := Option.map_eq_some'.mp h2
    have hkeep := queue_event_keeps_dl _ "percent" _ st3 o hq
    rw [show ({ st with last_dl_progress := dl_progress st transfer } :
        PacState).last_dl_progress = dl_progress st transfer from rfl] at hkeep
    rw [← hsub]
    exact hkeep

/-- Witness for C7: a continuing 1000-byte download at 500 bytes computes
progress one half, strictly above the last reported zero, and emits it. -/
theorem cb_dl_strictly_increasing_witness :
    st_dl.last_dl_progress < dl_progress st_dl 500 ∧
    cb_dl st_dl "linux-5.0-x86_64.pkg.tar.xz" 500 1000 =
      (queue_event { st_dl with last_dl_progress := dl_progress st_dl 500 }
         "percent" (.num (dl_progress st_dl 500))).map Prod.fst := by
  have hp : dl_progress st_dl 500 = ((500 : ℤ) : ℝ) / ((1000 : ℤ) : ℝ) := by
    unfold dl_progress
    rw [if_pos (show (0 : ℤ) < st_dl.last_dl_total_size by norm_num [st_dl])]
    rfl
  have hlt : st_dl.last_dl_progress < dl_progress st_dl 500 := by
    rw [hp]
    norm_num [st_dl]
  exact ⟨hlt, ((cb_dl_strictly_increasing st_dl "linux-5.0-x86_64.pkg.tar.xz" 500 1000
    rfl rfl).2 hlt).1⟩

/-! ## Claim C10 -/

/-- C10: with a non-empty target, `cb_progress` emits the `info` line and
then a `percent` event valued exactly `current / total` whenever
`total ≠ 0`; the division is unguarded, so `total = 0` raises an
unhandled `ZeroDivisionError` at this public callback interface. -/
theorem cb_progress_unguarded_division :
    ∀ (st : PacState) (target : String) (percent total current : ℤ),
      target ≠ "" →
      ((total = 0 → cb_progress st target percent total current = none) ∧
       (total ≠ 0 →
          ∃ st1 st2,
            queue_event st "info" (.str (installing_msg target current total)) =
              some (st1, QEOutcome.ret) ∧
            queue_event st1 "percent" (.num ((current : ℝ) / (total : ℝ))) =
              some (st2, QEOutcome.ret) ∧
            cb_progress st target percent total current = some st2)) := by
  intro st target percent total current htarget
  obtain ⟨st1, h1⟩ :=
    queue_event_str_total st "info" (installing_msg target current total) rfl rfl
  constructor
  · intro h0
    unfold cb_progress
    rw [if_pos htarget, h1]
    subst h0
    simp [pyDiv]
  · intro hne
    obtain ⟨st2, h2⟩ := queue_event_percent_total st1 ((current : ℝ) / (total : ℝ))
    refine ⟨st1, st2, h1, h2, ?_⟩
    unfold cb_progress
    rw [if_pos htarget, h1]
    simp only [Option.some_bind]
    unfold pyDiv
    rw [if_neg hne]
    simp [h2]

/-- Witness for C10: at total 0 the callback is undefined; at total 4 it
emits the two events with the exact fraction one quarter. -/
theorem cb_progress_unguarded_division_witness :
    cb_progress stNoQ "bash" 0 0 1 = none ∧
    (∃ st1 st2,
       queue_event stNoQ "info" (.str (installing_msg "bash" 1 4)) =
         some (st1, QEOutcome.ret) ∧
       queue_event st1 "percent" (.num (((1 : ℤ) : ℝ) / ((4 : ℤ) : ℝ))) =
         some (st2, QEOutcome.ret) ∧
       cb_progress stNoQ "bash" 0 4 1 = some st2) :=
  ⟨(cb_progress_unguarded_division stNoQ "bash" 0 0 1 (by decide)).1 rfl,
   (cb_progress_unguarded_division stNoQ "bash" 0 4 1 (by decide)).2 (by decide)⟩

/-! ## Claim C8 -/

/-- C8 counterexample: at a 2-GiB transfer the logarithmic heuristic
exceeds 1.0, so "never reaches 1.0" is false as stated. -/
theorem unknown_size_progress_exceeds_one :
    1 < unknown_size_progress 2147483648 := by
  unfold unknown_size_progress
  rw [show (1 : ℝ) + ((2147483648 : ℤ) : ℝ) / 1024 = 2097153 by norm_num]
  have h21 : Real.log 2097152 = 21 * Real.log 2 := by
    rw [show (2097152 : ℝ) = 2 ^ (21 : ℕ) by norm_num, Real.log_pow]
    norm_num
  have hmono : Real.log 2097152 ≤ Real.log 2097153 :=
    Real.log_le_log (by norm_num) (by norm_num)
  have hlog2 := Real.log_two_gt_d9
  have hlow : (14.5560907863 : ℝ) < Real.log 2097153 := by
    have : (14.5560907863 : ℝ) < 21 * Real.log 2 := by nlinarith
    rw [← h21] at this
    linarith
  nlinarith [hlow]

/-- C8 (amended): the heuristic stays strictly below 1.0 for every
transfer up to 2 ^ 30 bytes (one GiB); only for much larger unsized
transfers (for example 2 ^ 31 bytes) does it reach and exceed 1.0. -/
theorem unknown_size_progress_lt_one_bounded :
    ∀ t : ℤ, 0 ≤ t → t ≤ 2 ^ 30 → unknown_size_progress t < 1 := by
  intro t h0 h1
  unfold unknown_size_progress
  have ht0 : (0 : ℝ) ≤ (t : ℝ) := by exact_mod_cast h0
  have ht1 : (t : ℝ) ≤ 1073741824 := by exact_mod_cast h1
  have hx1 : (1 : ℝ) ≤ 1 + (t : ℝ) / 1024 := by linarith
  have hx2 : 1 + (t : ℝ) / 1024 ≤ 1048577 := by linarith
  have hlog0 : 0 ≤ Real.log (1 + (t : ℝ) / 1024) := Real.log_nonneg hx1
  have hexp : (1048577 : ℝ) < Real.exp 14 := by
    have h14 : Real.exp 14 = Real.exp 1 ^ (14 : ℕ) := by
      rw [show (14 : ℝ) = ((14 : ℕ) : ℝ) * 1 by norm_num, Real.exp_nat_mul]
    have hbase : (2.7182818283 : ℝ) ^ (14 : ℕ) ≤ Real.exp 1 ^ (14 : ℕ) :=
      pow_le_pow_left₀ (by norm_num) Real.exp_one_gt_d9.le 14
    have hval : (1048577 : ℝ) < (2.7182818283 : ℝ) ^ (14 : ℕ) := by norm_num
    rw [h14]
    linarith
  have hup : Real.log (1 + (t : ℝ) / 1024) < 14 := by
    have hxpos : (0 : ℝ) < 1 + (t : ℝ) / 1024 := by linarith
    exact (Real.log_lt_iff_lt_exp hxpos).mpr (by linarith)
  nlinarith [hlog0, hup]

/-- Witness for C8 (amended): one kilobyte transferred is inside the
bounded range and the heuristic value is below 1.0. -/
theorem unknown_size_progress_lt_one_bounded_witness :
    (0 : ℤ) ≤ 1024 ∧ (1024 : ℤ) ≤ 2 ^ 30 ∧ unknown_size_progress 1024 < 1 :=
  ⟨by norm_num, by norm_num,
   unknown_size_progress_lt_one_bounded 1024 (by norm_num) (by norm_num)⟩

end Pac
